import Mathlib

/-!
Shallow embedding of the kamal-proxy spillover buffer
(src/internal/server/buffer.go) and rollout splitter
(src/internal/server/rollout_controller.go).

Modelling conventions:
* Go int64 byte counters and limits become Nat (all quantities involved are
  nonnegative byte counts; int64 overflow would require more than 2^63 bytes
  and is out of reach of every claim).
* Byte strings (Go []byte and string values) become List Nat, one entry per
  byte value.
* Operating-system I/O (os.CreateTemp, file writes) is modelled as
  infallible: the spill file is an in-memory List Nat and createSpill always
  succeeds.  Secondary-store I/O errors are outside the claims considered
  here.
* The io.Reader field of Buffer is modelled by a Bool recording whether the
  composed reader has been installed (setReader has run); incremental Read
  consumption is not modelled, a full read (Read to EOF, or Send) is modelled
  by readerContents.
* The float64 PercentageSplitPoint is modelled as a rational number
  4294967295 * percentage / 100.  This agrees exactly with the Go float64
  computation at percentage 0 and 100 (the values the claims exercise), where
  every float64 operation involved is exact.
-/

namespace KamalProxy

/-- Byte strings: Go []byte and string values, one Nat per byte. -/
abbrev ByteString := List Nat

/-- The two error values returned by Buffer.Write:
ErrMaximumSizeExceeded and ErrWriteAfterRead. -/
inductive WriteError where
  | maximumSizeExceeded
  | writeAfterRead
deriving DecidableEq

/-- The Buffer struct from buffer.go.  The reader field records whether the
composed reader has been installed (Go: b.reader != nil). -/
structure Buffer where
  maxBytes : Nat
  maxMemBytes : Nat
  memoryBuffer : ByteString
  memBytesWritten : Nat
  diskBuffer : Option ByteString
  diskBytesWritten : Nat
  overflowed : Bool
  reader : Bool
deriving DecidableEq

/-- The (int, error) pair returned by Buffer.Write, together with the updated
buffer state (Go mutates the receiver in place). -/
structure WriteResult where
  buf : Buffer
  n : Nat
  err : Option WriteError
deriving DecidableEq

/-- NewBufferedWriteCloser: fresh buffer with the given limits. -/
def NewBufferedWriteCloser (maxBytes maxMemBytes : Nat) : Buffer :=
  { maxBytes := maxBytes
    maxMemBytes := maxMemBytes
    memoryBuffer := []
    memBytesWritten := 0
    diskBuffer := none
    diskBytesWritten := 0
    overflowed := false
    reader := false }

/-- writeToMemory: append to the memory buffer and bump the counter
(bytes.Buffer.Write always succeeds).  Returns the byte count written. -/
def Buffer.writeToMemory (b : Buffer) (p : ByteString) : Buffer × Nat :=
  ({ b with
      memoryBuffer := b.memoryBuffer ++ p
      memBytesWritten := b.memBytesWritten + p.length }, p.length)

/-- writeToDisk: append to the spill store and bump the counter (file write
modelled infallible).  Only reached when the spill store exists. -/
def Buffer.writeToDisk (b : Buffer) (p : ByteString) : Buffer × Nat :=
  ({ b with
      diskBuffer := some (b.diskBuffer.getD [] ++ p)
      diskBytesWritten := b.diskBytesWritten + p.length }, p.length)

/-- createSpill: create the (empty) spill store; os.CreateTemp modelled
infallible. -/
def Buffer.createSpill (b : Buffer) : Buffer :=
  { b with diskBuffer := some [] }

/-- Buffer.Write from buffer.go: reject after a read has begun; reject (and
set the sticky overflowed flag) when a nonzero maxBytes ceiling would be
crossed; otherwise route wholly to disk if spilled already, wholly to memory
if it fits, or split the write by creating the spill, filling memory up to
maxMemBytes (Go slice p[:maxMemBytes-memBytesWritten]) and sending the rest
(p[memWritten:]) to disk. -/
def Buffer.Write (b : Buffer) (p : ByteString) : WriteResult :=
  if b.reader then
    ⟨b, 0, some .writeAfterRead⟩
  else
    let length := p.length
    let totalWritten := b.memBytesWritten + b.diskBytesWritten
    if 0 < b.maxBytes ∧ b.maxBytes < totalWritten + length then
      ⟨{ b with overflowed := true }, 0, some .maximumSizeExceeded⟩
    else if b.diskBuffer.isSome then
      let r := b.writeToDisk p
      ⟨r.1, r.2, none⟩
    else if b.memBytesWritten + length ≤ b.maxMemBytes then
      let r := b.writeToMemory p
      ⟨r.1, r.2, none⟩
    else
      let r₁ := b.createSpill.writeToMemory (p.take (b.maxMemBytes - b.memBytesWritten))
      let r₂ := r₁.1.writeToDisk (p.drop r₁.2)
      ⟨r₂.1, r₁.2 + r₂.2, none⟩

/-- setReader: install the composed reader once; later calls are no-ops. -/
def Buffer.setReader (b : Buffer) : Buffer :=
  if b.reader then b else { b with reader := true }

/-- The full content delivered by the composed reader: the memory region
followed by the spill store (rewound) when one exists. -/
def Buffer.readerContents (b : Buffer) : ByteString :=
  b.memoryBuffer ++ b.diskBuffer.getD []

/-- The content of the spill store ([] when absent). -/
def Buffer.diskContents (b : Buffer) : ByteString :=
  b.diskBuffer.getD []

/-- Send: install the composed reader and copy the full buffered content to
the sink. -/
def Buffer.Send (b : Buffer) : Buffer × ByteString :=
  (b.setReader, b.readerContents)

/-- Overflowed accessor. -/
def Buffer.Overflowed (b : Buffer) : Bool :=
  b.overflowed

/-- Run a sequence of Write calls, threading the buffer state. -/
def Buffer.writeAll (b : Buffer) : List ByteString → Buffer
  | [] => b
  | p :: ps => ((b.Write p).buf).writeAll ps

/-- The concatenation of the payloads of the Write calls that succeeded
(returned no error) along a write sequence. -/
def Buffer.acceptedBytes (b : Buffer) : List ByteString → ByteString
  | [] => []
  | p :: ps =>
    let r := b.Write p
    (if r.err = none then p else []) ++ r.buf.acceptedBytes ps

/-- How many Write calls of the sequence created the spill store (transition
of diskBuffer from absent to present). -/
def Buffer.countSpills (b : Buffer) : List ByteString → Nat
  | [] => 0
  | p :: ps =>
    let b' := (b.Write p).buf
    (if b.diskBuffer.isNone ∧ b'.diskBuffer.isSome then 1 else 0)
      + b'.countSpills ps

/-- Operations a client can perform on a Buffer (Close is irrelevant to the
write/read phases and omitted). -/
inductive BufOp where
  | write (p : ByteString)
  | read
  | send

/-- Apply one operation; Read and Send both install the composed reader. -/
def Buffer.applyOp (b : Buffer) : BufOp → Buffer
  | .write p => (b.Write p).buf
  | .read => b.setReader
  | .send => b.setReader

/-- Run a sequence of operations. -/
def Buffer.runOps (b : Buffer) : List BufOp → Buffer
  | [] => b
  | op :: ops => (b.applyOp op).runOps ops

/-- Whether a read pass has begun somewhere in the operation sequence
(a Read or Send occurs). -/
def readBegun (ops : List BufOp) : Bool :=
  ops.any fun op =>
    match op with
    | .write _ => false
    | .read => true
    | .send => true

/-- The state invariant of a reachable Buffer. -/
structure Buffer.Inv (b : Buffer) : Prop where
  mem_count : b.memBytesWritten = b.memoryBuffer.length
  disk_count : b.diskBytesWritten = b.diskContents.length
  mem_le : b.memBytesWritten ≤ b.maxMemBytes
  disk_full : b.diskBuffer.isSome = true → b.memBytesWritten = b.maxMemBytes
  disk_iff : b.diskBuffer.isSome = true ↔ 0 < b.diskBytesWritten
  ceiling : 0 < b.maxBytes → b.memBytesWritten + b.diskBytesWritten ≤ b.maxBytes

/-! ## Rollout splitter (rollout_controller.go) -/

/-- The 32-bit FNV-1a hash of a byte string, exactly as hash/fnv computes it:
start from the offset basis 2166136261, and for each byte xor it in and
multiply by the prime 16777619 modulo 2^32. -/
def fnv1a32 (bytes : ByteString) : Nat :=
  bytes.foldl (fun h b => ((h ^^^ b) * 16777619) % 4294967296) 2166136261

/-- The RolloutController struct.  PercentageSplitPoint is the float64
maxHashValue * (percentage / 100) modelled as a rational (exact at the
percentages 0 and 100 exercised by the claims). -/
structure RolloutController where
  Percentage : Nat
  PercentageSplitPoint : ℚ
  Allowlist : List ByteString
deriving DecidableEq

/-- NewRolloutController: precompute the split point from the percentage. -/
def NewRolloutController (percentage : Nat) (allowlist : List ByteString) :
    RolloutController :=
  { Percentage := percentage
    PercentageSplitPoint := (4294967295 : ℚ) * ((percentage : ℚ) / 100)
    Allowlist := allowlist }

/-- splitValue: the value of the kamal-rollout cookie, or the empty string
when the cookie is absent.  A request is modelled by its optional cookie
value. -/
def RolloutController.splitValue (_rc : RolloutController)
    (r : Option ByteString) : ByteString :=
  r.getD []

/-- valueInAllowlist: slices.Contains on the allow-list. -/
def RolloutController.valueInAllowlist (rc : RolloutController)
    (value : ByteString) : Bool :=
  rc.Allowlist.contains value

/-- valueInRolloutPercentage: hash the value and compare with the split
point. -/
def RolloutController.valueInRolloutPercentage (rc : RolloutController)
    (value : ByteString) : Bool :=
  decide ((fnv1a32 value : ℚ) ≤ rc.PercentageSplitPoint)

/-- RequestUsesRolloutGroup: empty split value is never in the rollout group;
the allow-list is consulted before the percentage hash. -/
def RolloutController.RequestUsesRolloutGroup (rc : RolloutController)
    (r : Option ByteString) : Bool :=
  let splitValue := rc.splitValue r
  if splitValue = [] then
    false
  else if rc.valueInAllowlist splitValue then
    true
  else
    rc.valueInRolloutPercentage splitValue

/-! ## Frame lemmas about Buffer.Write -/

theorem Buffer.write_maxBytes (b : Buffer) (p : ByteString) :
    (b.Write p).buf.maxBytes = b.maxBytes := by
  simp only [Buffer.Write, Buffer.writeToMemory, Buffer.writeToDisk, Buffer.createSpill]
  repeat' split
  all_goals rfl

theorem Buffer.write_maxMemBytes (b : Buffer) (p : ByteString) :
    (b.Write p).buf.maxMemBytes = b.maxMemBytes := by
  simp only [Buffer.Write, Buffer.writeToMemory, Buffer.writeToDisk, Buffer.createSpill]
  repeat' split
  all_goals rfl

theorem Buffer.write_reader_eq (b : Buffer) (p : ByteString) :
    (b.Write p).buf.reader = b.reader := by
  simp only [Buffer.Write, Buffer.writeToMemory, Buffer.writeToDisk, Buffer.createSpill]
  repeat' split
  all_goals rfl

theorem Buffer.write_overflowed_mono (b : Buffer) (p : ByteString)
    (h : b.overflowed = true) : (b.Write p).buf.overflowed = true := by
  simp only [Buffer.Write, Buffer.writeToMemory, Buffer.writeToDisk, Buffer.createSpill]
  repeat' split
  all_goals first
    | exact h
    | rfl

theorem Buffer.write_disk_isSome_mono (b : Buffer) (p : ByteString)
    (h : b.diskBuffer.isSome = true) : (b.Write p).buf.diskBuffer.isSome = true := by
  simp only [Buffer.Write, Buffer.writeToMemory, Buffer.writeToDisk, Buffer.createSpill]
  repeat' split
  all_goals first
    | exact h
    | rfl

theorem Buffer.write_err_writeAfterRead_iff (b : Buffer) (p : ByteString) :
    (b.Write p).err = some WriteError.writeAfterRead ↔ b.reader = true := by
  simp only [Buffer.Write, Buffer.writeToMemory, Buffer.writeToDisk, Buffer.createSpill]
  repeat' split
  all_goals simp_all

/-! ## Step lemmas about Buffer.Write under the invariant -/

theorem Buffer.inv_new (maxBytes maxMemBytes : Nat) :
    (NewBufferedWriteCloser maxBytes maxMemBytes).Inv := by
  refine ⟨rfl, rfl, ?_, ?_, ?_, ?_⟩ <;>
    simp [NewBufferedWriteCloser, Buffer.diskContents]

theorem Buffer.write_inv (b : Buffer) (p : ByteString) (hb : b.Inv) :
    ((b.Write p).buf).Inv := by
  obtain ⟨hmc, hdc, hml, hdf, hdi, hce⟩ := hb
  simp only [Buffer.Write, Buffer.writeToMemory, Buffer.writeToDisk,
    Buffer.createSpill]
  split
  next hr =>
    exact ⟨hmc, hdc, hml, hdf, hdi, hce⟩
  next hr =>
    split
    next hcl =>
      exact ⟨hmc, hdc, hml, hdf, hdi, hce⟩
    next hcl =>
      split
      next hd =>
        obtain ⟨d, hd'⟩ := Option.isSome_iff_exists.mp hd
        have hd0 : 0 < b.diskBytesWritten := hdi.mp hd
        refine ⟨hmc, ?_, hml, fun _ => hdf hd, ?_, ?_⟩
        · dsimp only [Buffer.diskContents]
          simp only [Buffer.diskContents, hd', Option.getD_some] at hdc ⊢
          simp [hdc]
        · dsimp only
          simp only [Option.isSome_some, true_iff]
          omega
        · dsimp only
          intro hpos
          omega
      next hd =>
        have hdisk : b.diskBuffer = none := Option.not_isSome_iff_eq_none.mp hd
        split
        next hm =>
          refine ⟨?_, hdc, hm, ?_, ?_, ?_⟩
          · dsimp only
            simp [hmc]
          · dsimp only
            intro hsome
            exact absurd hsome hd
          · dsimp only
            exact hdi
          · dsimp only
            intro hpos
            omega
        next hm =>
          have hdz : b.diskBytesWritten = 0 := by
            by_contra hz
            exact hd (hdi.mpr (Nat.pos_of_ne_zero hz))
          refine ⟨?_, ?_, ?_, ?_, ?_, ?_⟩
          · dsimp only
            simp [hmc, List.length_take]
          · dsimp only [Buffer.diskContents]
            simp [hdz]
          · dsimp only
            simp only [List.length_take]
            omega
          · dsimp only
            intro _
            simp only [List.length_take]
            omega
          · dsimp only
            simp only [Option.isSome_some, true_iff, List.length_drop,
              List.length_take]
            omega
          · dsimp only
            intro hpos
            simp only [List.length_drop, List.length_take]
            omega

/-- Taking a prefix and dropping as many elements as that prefix holds
reassembles the list (the split performed by the spill branch). -/
theorem take_append_drop_length_take {α : Type} (l : List α) (n : Nat) :
    l.take n ++ l.drop ((l.take n).length) = l := by
  rcases Nat.le_total n l.length with h | h
  · rw [List.length_take, Nat.min_eq_left h, List.take_append_drop]
  · rw [List.take_of_length_le h, List.drop_length, List.append_nil]

theorem Buffer.write_contents_of_none (b : Buffer) (p : ByteString)
    (h : (b.Write p).err = none) :
    (b.Write p).buf.readerContents = b.readerContents ++ p ∧
      (b.Write p).n = p.length := by
  revert h
  simp only [Buffer.Write, Buffer.writeToMemory, Buffer.writeToDisk,
    Buffer.createSpill]
  split
  next hr => intro h; simp at h
  next hr =>
    split
    next hcl => intro h; simp at h
    next hcl =>
      split
      next hd =>
        intro _
        obtain ⟨d, hd'⟩ := Option.isSome_iff_exists.mp hd
        constructor
        · dsimp only [Buffer.readerContents]
          simp [hd', List.append_assoc]
        · rfl
      next hd =>
        have hdisk : b.diskBuffer = none := Option.not_isSome_iff_eq_none.mp hd
        split
        next hm =>
          intro _
          constructor
          · dsimp only [Buffer.readerContents]
            simp [hdisk]
          · rfl
        next hm =>
          intro _
          constructor
          · dsimp only [Buffer.readerContents]
            simp only [hdisk, Option.getD_some, Option.getD_none,
              List.nil_append, List.append_assoc, List.append_nil]
            rw [take_append_drop_length_take]
          · dsimp only
            simp only [List.length_take, List.length_drop]
            omega

theorem Buffer.write_frame_of_err (b : Buffer) (p : ByteString)
    (h : (b.Write p).err ≠ none) :
    (b.Write p).buf.memoryBuffer = b.memoryBuffer ∧
      (b.Write p).buf.diskBuffer = b.diskBuffer ∧
      (b.Write p).buf.memBytesWritten = b.memBytesWritten ∧
      (b.Write p).buf.diskBytesWritten = b.diskBytesWritten ∧
      (b.Write p).n = 0 := by
  revert h
  simp only [Buffer.Write, Buffer.writeToMemory, Buffer.writeToDisk,
    Buffer.createSpill]
  split
  next hr => intro _; exact ⟨rfl, rfl, rfl, rfl, rfl⟩
  next hr =>
    split
    next hcl => intro _; exact ⟨rfl, rfl, rfl, rfl, rfl⟩
    next hcl =>
      split
      next hd => intro h; simp at h
      next hd =>
        split
        next hm => intro h; simp at h
        next hm => intro h; simp at h

theorem Buffer.write_err_none_iff (b : Buffer) (p : ByteString) :
    (b.Write p).err = none ↔
      (b.reader = false ∧ (b.maxBytes = 0 ∨
        b.memBytesWritten + b.diskBytesWritten + p.length ≤ b.maxBytes)) := by
  simp only [Buffer.Write, Buffer.writeToMemory, Buffer.writeToDisk,
    Buffer.createSpill]
  split
  next hr => simp [hr]
  next hr =>
    split
    next hcl =>
      simp only [Bool.not_eq_true] at hr
      simp only [hr, true_and]
      constructor
      · intro h
        simp at h
      · intro h
        omega
    next hcl =>
      simp only [Bool.not_eq_true] at hr
      split
      next hd => simp [hr]; omega
      next hd =>
        split
        next hm => simp [hr]; omega
        next hm => simp [hr]; omega

theorem Buffer.write_total_of_none (b : Buffer) (p : ByteString)
    (h : (b.Write p).err = none) :
    (b.Write p).buf.memBytesWritten + (b.Write p).buf.diskBytesWritten =
      b.memBytesWritten + b.diskBytesWritten + p.length := by
  revert h
  simp only [Buffer.Write, Buffer.writeToMemory, Buffer.writeToDisk,
    Buffer.createSpill]
  split
  next hr => intro h; simp at h
  next hr =>
    split
    next hcl => intro h; simp at h
    next hcl =>
      split
      next hd =>
        intro _
        dsimp only
        omega
      next hd =>
        split
        next hm =>
          intro _
          dsimp only
          omega
        next hm =>
          intro _
          dsimp only
          simp only [List.length_take, List.length_drop]
          omega

/-! ## Trace lemmas: sequences of writes -/

theorem Buffer.writeAll_inv (b : Buffer) (ps : List ByteString) (hb : b.Inv) :
    (b.writeAll ps).Inv := by
  induction ps generalizing b with
  | nil => exact hb
  | cons p ps ih => exact ih _ (b.write_inv p hb)

theorem Buffer.writeAll_maxBytes (b : Buffer) (ps : List ByteString) :
    (b.writeAll ps).maxBytes = b.maxBytes := by
  induction ps generalizing b with
  | nil => rfl
  | cons p ps ih => rw [Buffer.writeAll, ih, Buffer.write_maxBytes]

theorem Buffer.writeAll_maxMemBytes (b : Buffer) (ps : List ByteString) :
    (b.writeAll ps).maxMemBytes = b.maxMemBytes := by
  induction ps generalizing b with
  | nil => rfl
  | cons p ps ih => rw [Buffer.writeAll, ih, Buffer.write_maxMemBytes]

theorem Buffer.writeAll_reader (b : Buffer) (ps : List ByteString) :
    (b.writeAll ps).reader = b.reader := by
  induction ps generalizing b with
  | nil => rfl
  | cons p ps ih => rw [Buffer.writeAll, ih, Buffer.write_reader_eq]

theorem Buffer.writeAll_overflowed_mono (b : Buffer) (ps : List ByteString)
    (h : b.overflowed = true) : (b.writeAll ps).overflowed = true := by
  induction ps generalizing b with
  | nil => exact h
  | cons p ps ih => exact ih _ (b.write_overflowed_mono p h)

theorem Buffer.writeAll_disk_isSome_mono (b : Buffer) (ps : List ByteString)
    (h : b.diskBuffer.isSome = true) :
    (b.writeAll ps).diskBuffer.isSome = true := by
  induction ps generalizing b with
  | nil => exact h
  | cons p ps ih => exact ih _ (b.write_disk_isSome_mono p h)

theorem Buffer.writeAll_contents (b : Buffer) (ps : List ByteString) :
    (b.writeAll ps).readerContents = b.readerContents ++ b.acceptedBytes ps := by
  induction ps generalizing b with
  | nil => simp [Buffer.writeAll, Buffer.acceptedBytes]
  | cons p ps ih =>
    simp only [Buffer.writeAll, Buffer.acceptedBytes]
    rw [ih]
    by_cases h : (b.Write p).err = none
    · rw [(b.write_contents_of_none p h).1]
      simp [h, List.append_assoc]
    · have hfr := b.write_frame_of_err p h
      have hrc : (b.Write p).buf.readerContents = b.readerContents := by
        dsimp only [Buffer.readerContents]
        rw [hfr.1, hfr.2.1]
      simp [h, hrc]

theorem Buffer.acceptedBytes_eq_flatten (b : Buffer) (ps : List ByteString)
    (hr : b.reader = false)
    (hc : b.maxBytes = 0 ∨
      b.memBytesWritten + b.diskBytesWritten + (ps.map List.length).sum ≤ b.maxBytes) :
    b.acceptedBytes ps = ps.flatten := by
  induction ps generalizing b with
  | nil => simp [Buffer.acceptedBytes]
  | cons p ps ih =>
    have herr : (b.Write p).err = none := by
      rw [Buffer.write_err_none_iff]
      refine ⟨hr, ?_⟩
      rcases hc with h0 | hle
      · exact Or.inl h0
      · right
        simp only [List.map_cons, List.sum_cons] at hle
        omega
    simp only [Buffer.acceptedBytes, herr, if_pos, List.flatten_cons]
    have htail : (b.Write p).buf.acceptedBytes ps = ps.flatten := by
      apply ih
      · rw [Buffer.write_reader_eq]
        exact hr
      · rcases hc with h0 | hle
        · left
          rw [Buffer.write_maxBytes]
          exact h0
        · right
          rw [Buffer.write_maxBytes, Buffer.write_total_of_none b p herr]
          simp only [List.map_cons, List.sum_cons] at hle
          omega
    simp [htail]

theorem Buffer.write_memBytes_le (b : Buffer) (p : ByteString) :
    (b.Write p).buf.memBytesWritten ≤ b.memBytesWritten + p.length := by
  simp only [Buffer.Write, Buffer.writeToMemory, Buffer.writeToDisk,
    Buffer.createSpill]
  repeat' split
  all_goals dsimp only
  all_goals try simp only [List.length_take]
  all_goals omega

theorem Buffer.write_disk_none (b : Buffer) (p : ByteString)
    (hd : b.diskBuffer = none)
    (h2 : b.memBytesWritten + p.length ≤ b.maxMemBytes) :
    (b.Write p).buf.diskBuffer = none := by
  simp only [Buffer.Write, Buffer.writeToMemory, Buffer.writeToDisk,
    Buffer.createSpill]
  split
  next => exact hd
  next =>
    split
    next => exact hd
    next =>
      split
      next hds => rw [hd] at hds; simp at hds
      next hds => exact hd

theorem Buffer.writeAll_disk_none (b : Buffer) (ps : List ByteString)
    (hd : b.diskBuffer = none)
    (h : b.memBytesWritten + (ps.map List.length).sum ≤ b.maxMemBytes) :
    (b.writeAll ps).diskBuffer = none := by
  induction ps generalizing b with
  | nil => exact hd
  | cons p ps ih =>
    have h2 : b.memBytesWritten + p.length ≤ b.maxMemBytes := by
      simp only [List.map_cons, List.sum_cons] at h
      omega
    have hd' := b.write_disk_none p hd h2
    have hm' := b.write_memBytes_le p
    apply ih _ hd'
    rw [Buffer.write_maxMemBytes]
    simp only [List.map_cons, List.sum_cons] at h
    omega

theorem Buffer.countSpills_eq (b : Buffer) (ps : List ByteString) :
    b.countSpills ps =
      if b.diskBuffer.isNone ∧ (b.writeAll ps).diskBuffer.isSome then 1
      else 0 := by
  induction ps generalizing b with
  | nil =>
    simp only [Buffer.countSpills, Buffer.writeAll]
    rw [if_neg]
    rintro ⟨h1, h2⟩
    rw [Option.isNone_iff_eq_none.mp h1] at h2
    simp at h2
  | cons p ps ih =>
    simp only [Buffer.countSpills, Buffer.writeAll]
    rw [ih]
    by_cases h1 : b.diskBuffer.isSome = true
    · obtain ⟨x, hx⟩ := Option.isSome_iff_exists.mp h1
      obtain ⟨y, hy⟩ :=
        Option.isSome_iff_exists.mp (b.write_disk_isSome_mono p h1)
      simp [hx, hy]
    · have h1n : b.diskBuffer = none := Option.not_isSome_iff_eq_none.mp h1
      by_cases h2 : (b.Write p).buf.diskBuffer.isSome = true
      · obtain ⟨y, hy⟩ := Option.isSome_iff_exists.mp h2
        have h3 := Buffer.writeAll_disk_isSome_mono _ ps h2
        simp [h1n, hy, h3]
      · have h2n : (b.Write p).buf.diskBuffer = none :=
          Option.not_isSome_iff_eq_none.mp h2
        simp [h1n, h2n]

/-! ## Trace lemmas: operation sequences and the reader flag -/

theorem Buffer.setReader_reader (b : Buffer) : (b.setReader).reader = true := by
  unfold Buffer.setReader
  split
  next h => exact h
  next h => rfl

theorem Buffer.runOps_reader (b : Buffer) (ops : List BufOp) :
    (b.runOps ops).reader = (b.reader || readBegun ops) := by
  induction ops generalizing b with
  | nil => simp [Buffer.runOps, readBegun]
  | cons op ops ih =>
    simp only [Buffer.runOps, readBegun, List.any_cons] at *
    rw [ih]
    cases op with
    | write p =>
      simp [Buffer.applyOp, Buffer.write_reader_eq, readBegun]
    | read =>
      simp [Buffer.applyOp, Buffer.setReader_reader, readBegun]
    | send =>
      simp [Buffer.applyOp, Buffer.setReader_reader, readBegun]

theorem Buffer.setReader_overflowed (b : Buffer) :
    (b.setReader).overflowed = b.overflowed := by
  unfold Buffer.setReader
  split <;> rfl

theorem Buffer.setReader_maxBytes (b : Buffer) :
    (b.setReader).maxBytes = b.maxBytes := by
  unfold Buffer.setReader
  split <;> rfl

theorem Buffer.setReader_maxMemBytes (b : Buffer) :
    (b.setReader).maxMemBytes = b.maxMemBytes := by
  unfold Buffer.setReader
  split <;> rfl

theorem Buffer.setReader_inv (b : Buffer) (hb : b.Inv) : (b.setReader).Inv := by
  obtain ⟨hmc, hdc, hml, hdf, hdi, hce⟩ := hb
  unfold Buffer.setReader
  split
  · exact ⟨hmc, hdc, hml, hdf, hdi, hce⟩
  · exact ⟨hmc, hdc, hml, hdf, hdi, hce⟩

theorem Buffer.applyOp_inv (b : Buffer) (op : BufOp) (hb : b.Inv) :
    (b.applyOp op).Inv := by
  cases op with
  | write p => exact b.write_inv p hb
  | read => exact b.setReader_inv hb
  | send => exact b.setReader_inv hb

theorem Buffer.runOps_inv (b : Buffer) (ops : List BufOp) (hb : b.Inv) :
    (b.runOps ops).Inv := by
  induction ops generalizing b with
  | nil => exact hb
  | cons op ops ih => exact ih _ (b.applyOp_inv op hb)

theorem Buffer.runOps_maxBytes (b : Buffer) (ops : List BufOp) :
    (b.runOps ops).maxBytes = b.maxBytes := by
  induction ops generalizing b with
  | nil => rfl
  | cons op ops ih =>
    rw [Buffer.runOps, ih]
    cases op with
    | write p => exact b.write_maxBytes p
    | read => exact b.setReader_maxBytes
    | send => exact b.setReader_maxBytes

theorem Buffer.runOps_maxMemBytes (b : Buffer) (ops : List BufOp) :
    (b.runOps ops).maxMemBytes = b.maxMemBytes := by
  induction ops generalizing b with
  | nil => rfl
  | cons op ops ih =>
    rw [Buffer.runOps, ih]
    cases op with
    | write p => exact b.write_maxMemBytes p
    | read => exact b.setReader_maxMemBytes
    | send => exact b.setReader_maxMemBytes

theorem Buffer.runOps_overflowed_mono (b : Buffer) (ops : List BufOp)
    (h : b.overflowed = true) : (b.runOps ops).overflowed = true := by
  induction ops generalizing b with
  | nil => exact h
  | cons op ops ih =>
    apply ih
    cases op with
    | write p => exact b.write_overflowed_mono p h
    | read => exact Eq.trans b.setReader_overflowed h
    | send => exact Eq.trans b.setReader_overflowed h

/-! ## Claim theorems -/

/-- C5: for every sequence of Write calls whose total size is at most
maxMemBytes, no disk spill is ever created (diskBuffer stays absent) and a
full read (Send) returns exactly the concatenation of the written bytes in
write order: unconditionally the concatenation of the successfully written
payloads, which is the concatenation of all the payloads whenever the
maxBytes ceiling does not interfere (maxBytes zero or total within it). -/
theorem c5_within_memory_no_spill (maxBytes maxMemBytes : Nat)
    (ps : List ByteString)
    (h : (ps.map List.length).sum ≤ maxMemBytes) :
    ((NewBufferedWriteCloser maxBytes maxMemBytes).writeAll ps).diskBuffer
        = none ∧
      (((NewBufferedWriteCloser maxBytes maxMemBytes).writeAll ps).Send).2 =
        (NewBufferedWriteCloser maxBytes maxMemBytes).acceptedBytes ps ∧
      ((maxBytes = 0 ∨ (ps.map List.length).sum ≤ maxBytes) →
        (((NewBufferedWriteCloser maxBytes maxMemBytes).writeAll ps).Send).2 =
          ps.flatten) := by
  have hsend : (((NewBufferedWriteCloser maxBytes maxMemBytes).writeAll ps).Send).2 =
      (NewBufferedWriteCloser maxBytes maxMemBytes).acceptedBytes ps := by
    show ((NewBufferedWriteCloser maxBytes maxMemBytes).writeAll ps).readerContents = _
    rw [Buffer.writeAll_contents]
    simp [Buffer.readerContents, NewBufferedWriteCloser]
  refine ⟨?_, hsend, ?_⟩
  · apply Buffer.writeAll_disk_none _ _ rfl
    simpa [NewBufferedWriteCloser] using h
  · intro hc
    rw [hsend]
    apply Buffer.acceptedBytes_eq_flatten _ _ rfl
    rcases hc with h0 | hle
    · exact Or.inl h0
    · right
      simpa [NewBufferedWriteCloser] using hle

/-- C5 witness: maxBytes 0, maxMemBytes 10, writes of 3 and 2 bytes. -/
theorem c5_within_memory_no_spill_witness :
    (([[1, 2, 3], [4, 5]].map List.length).sum ≤ 10) ∧
      (((NewBufferedWriteCloser 0 10).writeAll [[1, 2, 3], [4, 5]]).diskBuffer
          = none ∧
        (((NewBufferedWriteCloser 0 10).writeAll [[1, 2, 3], [4, 5]]).Send).2 =
          (NewBufferedWriteCloser 0 10).acceptedBytes [[1, 2, 3], [4, 5]] ∧
        ((0 = 0 ∨ ([[1, 2, 3], [4, 5]].map List.length).sum ≤ 0) →
          (((NewBufferedWriteCloser 0 10).writeAll [[1, 2, 3], [4, 5]]).Send).2 =
            [[1, 2, 3], [4, 5]].flatten)) :=
  ⟨by decide, c5_within_memory_no_spill 0 10 [[1, 2, 3], [4, 5]] (by decide)⟩

/-- C6: a Write call fails with the write-after-read error exactly when a
read pass has begun on the instance, i.e. when the operation history holds a
Read or Send (which installs the composed reader); before any read, Write
never returns that error. -/
theorem c6_write_after_read_iff (maxBytes maxMemBytes : Nat)
    (ops : List BufOp) (p : ByteString) :
    (((NewBufferedWriteCloser maxBytes maxMemBytes).runOps ops).Write p).err =
        some WriteError.writeAfterRead ↔ readBegun ops = true := by
  rw [Buffer.write_err_writeAfterRead_iff, Buffer.runOps_reader]
  simp [NewBufferedWriteCloser]

/-- C6 witness: a write followed by a read; the next write fails with the
write-after-read error. -/
theorem c6_write_after_read_iff_witness :
    (((NewBufferedWriteCloser 0 10).runOps
        [BufOp.write [1], BufOp.read]).Write [2]).err =
        some WriteError.writeAfterRead ↔
      readBegun [BufOp.write [1], BufOp.read] = true :=
  c6_write_after_read_iff 0 10 [BufOp.write [1], BufOp.read] [2]

/-- C7: state invariant after any operation sequence from a fresh buffer:
the memory region never exceeds maxMemBytes, the disk region exists iff at
least one byte has spilled, and a nonzero maxBytes bounds the total bytes
written. -/
theorem c7_state_invariant (maxBytes maxMemBytes : Nat) (ops : List BufOp) :
    ((NewBufferedWriteCloser maxBytes maxMemBytes).runOps ops).memoryBuffer.length
        ≤ maxMemBytes ∧
      (((NewBufferedWriteCloser maxBytes maxMemBytes).runOps ops).diskBuffer.isSome
          = true ↔
        0 < ((NewBufferedWriteCloser maxBytes maxMemBytes).runOps ops).diskBytesWritten) ∧
      (0 < maxBytes →
        ((NewBufferedWriteCloser maxBytes maxMemBytes).runOps ops).memBytesWritten +
            ((NewBufferedWriteCloser maxBytes maxMemBytes).runOps ops).diskBytesWritten
          ≤ maxBytes) := by
  have hinv := Buffer.runOps_inv _ ops (Buffer.inv_new maxBytes maxMemBytes)
  have hmm := Buffer.runOps_maxMemBytes (NewBufferedWriteCloser maxBytes maxMemBytes) ops
  have hmb := Buffer.runOps_maxBytes (NewBufferedWriteCloser maxBytes maxMemBytes) ops
  refine ⟨?_, hinv.disk_iff, ?_⟩
  · have h1 := hinv.mem_le
    have h2 := hinv.mem_count
    rw [hmm] at h1
    simp only [NewBufferedWriteCloser] at h1 h2 ⊢
    omega
  · intro hpos
    have h := hinv.ceiling
    rw [hmb] at h
    simp only [NewBufferedWriteCloser] at h ⊢
    exact h hpos

/-- C7 witness: ceiling 10, memory threshold 5, one 7-byte write (spills). -/
theorem c7_state_invariant_witness :
    ((NewBufferedWriteCloser 10 5).runOps
        [BufOp.write [1, 2, 3, 4, 5, 6, 7]]).memoryBuffer.length ≤ 5 ∧
      (((NewBufferedWriteCloser 10 5).runOps
          [BufOp.write [1, 2, 3, 4, 5, 6, 7]]).diskBuffer.isSome = true ↔
        0 < ((NewBufferedWriteCloser 10 5).runOps
          [BufOp.write [1, 2, 3, 4, 5, 6, 7]]).diskBytesWritten) ∧
      (0 < 10 →
        ((NewBufferedWriteCloser 10 5).runOps
            [BufOp.write [1, 2, 3, 4, 5, 6, 7]]).memBytesWritten +
          ((NewBufferedWriteCloser 10 5).runOps
            [BufOp.write [1, 2, 3, 4, 5, 6, 7]]).diskBytesWritten ≤ 10) :=
  c7_state_invariant 10 5 [BufOp.write [1, 2, 3, 4, 5, 6, 7]]

/-- C3: with a nonzero maxBytes ceiling, in the write phase, a Write whose
length added to the bytes already written would exceed the ceiling fails
atomically: maximum-size-exceeded error, zero bytes reported, memory region,
disk region and both counters untouched, and the sticky flag set. -/
theorem c3_ceiling_rejection_atomic (b : Buffer) (p : ByteString)
    (h0 : 0 < b.maxBytes) (hr : b.reader = false)
    (h : b.maxBytes < b.memBytesWritten + b.diskBytesWritten + p.length) :
    (b.Write p).err = some WriteError.maximumSizeExceeded ∧
      (b.Write p).n = 0 ∧
      (b.Write p).buf.memoryBuffer = b.memoryBuffer ∧
      (b.Write p).buf.diskBuffer = b.diskBuffer ∧
      (b.Write p).buf.memBytesWritten = b.memBytesWritten ∧
      (b.Write p).buf.diskBytesWritten = b.diskBytesWritten ∧
      (b.Write p).buf.overflowed = true := by
  simp only [Buffer.Write, Buffer.writeToMemory, Buffer.writeToDisk,
    Buffer.createSpill]
  split
  next hrr => rw [hr] at hrr; simp at hrr
  next hrr =>
    split
    next hcl => exact ⟨rfl, rfl, rfl, rfl, rfl, rfl, rfl⟩
    next hcl => exact absurd ⟨h0, h⟩ hcl

/-- C3 witness: ceiling 10, already 6 bytes in memory, then a 6-byte write. -/
theorem c3_ceiling_rejection_atomic_witness :
    (0 < ((NewBufferedWriteCloser 10 20).writeAll [[1, 1, 1, 1, 1, 1]]).maxBytes) ∧
      (((NewBufferedWriteCloser 10 20).writeAll [[1, 1, 1, 1, 1, 1]]).reader = false) ∧
      (((NewBufferedWriteCloser 10 20).writeAll [[1, 1, 1, 1, 1, 1]]).maxBytes <
        ((NewBufferedWriteCloser 10 20).writeAll [[1, 1, 1, 1, 1, 1]]).memBytesWritten +
          ((NewBufferedWriteCloser 10 20).writeAll [[1, 1, 1, 1, 1, 1]]).diskBytesWritten +
          [2, 2, 2, 2, 2, 2].length) ∧
      ((((NewBufferedWriteCloser 10 20).writeAll [[1, 1, 1, 1, 1, 1]]).Write
            [2, 2, 2, 2, 2, 2]).err = some WriteError.maximumSizeExceeded ∧
        ((((NewBufferedWriteCloser 10 20).writeAll [[1, 1, 1, 1, 1, 1]]).Write
            [2, 2, 2, 2, 2, 2]).n = 0) ∧
        ((((NewBufferedWriteCloser 10 20).writeAll [[1, 1, 1, 1, 1, 1]]).Write
              [2, 2, 2, 2, 2, 2]).buf.memoryBuffer =
          ((NewBufferedWriteCloser 10 20).writeAll [[1, 1, 1, 1, 1, 1]]).memoryBuffer) ∧
        ((((NewBufferedWriteCloser 10 20).writeAll [[1, 1, 1, 1, 1, 1]]).Write
              [2, 2, 2, 2, 2, 2]).buf.diskBuffer =
          ((NewBufferedWriteCloser 10 20).writeAll [[1, 1, 1, 1, 1, 1]]).diskBuffer) ∧
        ((((NewBufferedWriteCloser 10 20).writeAll [[1, 1, 1, 1, 1, 1]]).Write
              [2, 2, 2, 2, 2, 2]).buf.memBytesWritten =
          ((NewBufferedWriteCloser 10 20).writeAll [[1, 1, 1, 1, 1, 1]]).memBytesWritten) ∧
        ((((NewBufferedWriteCloser 10 20).writeAll [[1, 1, 1, 1, 1, 1]]).Write
              [2, 2, 2, 2, 2, 2]).buf.diskBytesWritten =
          ((NewBufferedWriteCloser 10 20).writeAll [[1, 1, 1, 1, 1, 1]]).diskBytesWritten) ∧
        ((((NewBufferedWriteCloser 10 20).writeAll [[1, 1, 1, 1, 1, 1]]).Write
            [2, 2, 2, 2, 2, 2]).buf.overflowed = true)) :=
  ⟨by decide, by decide, by decide,
    c3_ceiling_rejection_atomic _ [2, 2, 2, 2, 2, 2] (by decide) (by decide)
      (by decide)⟩

/-- C1 counterexample: with maxBytes 10 and maxMemBytes 10, writing 6 bytes
succeeds, writing 6 more fails with the size-exceeded error and sets the
sticky flag, yet a subsequent 1-byte write (which fits back under the
ceiling: 6 + 1 ≤ 10) succeeds with no error — Buffer.Write never consults
the overflowed flag, so the claim that every later write fails is false. -/
theorem c1_counterexample :
    ((((NewBufferedWriteCloser 10 10).writeAll [[1, 1, 1, 1, 1, 1]]).Write
        [2, 2, 2, 2, 2, 2]).err = some WriteError.maximumSizeExceeded) ∧
      (((NewBufferedWriteCloser 10 10).writeAll
          [[1, 1, 1, 1, 1, 1], [2, 2, 2, 2, 2, 2]]).overflowed = true) ∧
      ((((NewBufferedWriteCloser 10 10).writeAll
          [[1, 1, 1, 1, 1, 1], [2, 2, 2, 2, 2, 2]]).Write [3]).err = none) ∧
      ((((NewBufferedWriteCloser 10 10).writeAll
          [[1, 1, 1, 1, 1, 1], [2, 2, 2, 2, 2, 2]]).Write [3]).n = 1) := by
  decide

/-- C1 (amended): once a write has failed with the size-exceeded error, the
overflowed flag is true and stays true across every further operation on the
instance; however, the flag does not itself block writes: in the write phase
a later write is re-judged by the ceiling arithmetic alone and succeeds
whenever its length plus the bytes already stored fits under the ceiling
(or the ceiling is zero, that is unlimited). -/
theorem c1_sticky_overflow_amended (b : Buffer) (ops : List BufOp)
    (p : ByteString) (h : b.overflowed = true) :
    (b.runOps ops).overflowed = true ∧
      (b.reader = false →
        (b.maxBytes = 0 ∨
          b.memBytesWritten + b.diskBytesWritten + p.length ≤ b.maxBytes) →
        (b.Write p).err = none) := by
  refine ⟨b.runOps_overflowed_mono ops h, ?_⟩
  intro h1 h2
  exact (b.write_err_none_iff p).mpr ⟨h1, h2⟩

/-- C1 amended witness: the overflowed two-write state above, one further
read operation, and a later 1-byte write. -/
theorem c1_sticky_overflow_amended_witness :
    (((NewBufferedWriteCloser 10 10).writeAll
        [[1, 1, 1, 1, 1, 1], [2, 2, 2, 2, 2, 2]]).overflowed = true) ∧
      ((((NewBufferedWriteCloser 10 10).writeAll
          [[1, 1, 1, 1, 1, 1], [2, 2, 2, 2, 2, 2]]).runOps
            [BufOp.read]).overflowed = true ∧
        (((NewBufferedWriteCloser 10 10).writeAll
            [[1, 1, 1, 1, 1, 1], [2, 2, 2, 2, 2, 2]]).reader = false →
          (((NewBufferedWriteCloser 10 10).writeAll
              [[1, 1, 1, 1, 1, 1], [2, 2, 2, 2, 2, 2]]).maxBytes = 0 ∨
            ((NewBufferedWriteCloser 10 10).writeAll
                  [[1, 1, 1, 1, 1, 1], [2, 2, 2, 2, 2, 2]]).memBytesWritten +
                ((NewBufferedWriteCloser 10 10).writeAll
                    [[1, 1, 1, 1, 1, 1], [2, 2, 2, 2, 2, 2]]).diskBytesWritten +
                [3].length ≤
              ((NewBufferedWriteCloser 10 10).writeAll
                  [[1, 1, 1, 1, 1, 1], [2, 2, 2, 2, 2, 2]]).maxBytes) →
          (((NewBufferedWriteCloser 10 10).writeAll
              [[1, 1, 1, 1, 1, 1], [2, 2, 2, 2, 2, 2]]).Write [3]).err = none)) :=
  ⟨by decide, c1_sticky_overflow_amended _ [BufOp.read] [3] (by decide)⟩

/-- C2: a write sequence that exceeds maxMemBytes while staying within the
maxBytes ceiling (or with the ceiling disabled) creates the disk spill
exactly once; a full read returns the concatenation of all written bytes in
order independent of chunking, with the first maxMemBytes bytes in memory
and exactly the overflowing remainder on disk. -/
theorem c2_spill_once_read_in_order (maxBytes maxMemBytes : Nat)
    (ps : List ByteString)
    (h1 : maxMemBytes < (ps.map List.length).sum)
    (h2 : maxBytes = 0 ∨ (ps.map List.length).sum ≤ maxBytes) :
    (NewBufferedWriteCloser maxBytes maxMemBytes).countSpills ps = 1 ∧
      (((NewBufferedWriteCloser maxBytes maxMemBytes).writeAll ps).Send).2 =
        ps.flatten ∧
      ((NewBufferedWriteCloser maxBytes maxMemBytes).writeAll ps).memoryBuffer =
        ps.flatten.take maxMemBytes ∧
      ((NewBufferedWriteCloser maxBytes maxMemBytes).writeAll ps).diskContents =
        ps.flatten.drop maxMemBytes := by
  have hacc : (NewBufferedWriteCloser maxBytes maxMemBytes).acceptedBytes ps =
      ps.flatten := by
    apply Buffer.acceptedBytes_eq_flatten _ _ rfl
    rcases h2 with h0 | hle
    · exact Or.inl h0
    · right
      simpa [NewBufferedWriteCloser] using hle
  have hcont : ((NewBufferedWriteCloser maxBytes maxMemBytes).writeAll
      ps).readerContents = ps.flatten := by
    rw [Buffer.writeAll_contents, hacc]
    simp [Buffer.readerContents, NewBufferedWriteCloser]
  have hinv := Buffer.writeAll_inv _ ps (Buffer.inv_new maxBytes maxMemBytes)
  have hmm := Buffer.writeAll_maxMemBytes
    (NewBufferedWriteCloser maxBytes maxMemBytes) ps
  have htot : ((NewBufferedWriteCloser maxBytes maxMemBytes).writeAll
        ps).memoryBuffer.length +
      ((NewBufferedWriteCloser maxBytes maxMemBytes).writeAll
        ps).diskContents.length = (ps.map List.length).sum := by
    have hl : (((NewBufferedWriteCloser maxBytes maxMemBytes).writeAll
        ps).readerContents).length = ps.flatten.length := by
      rw [hcont]
    simp only [Buffer.readerContents, Buffer.diskContents, List.length_append,
      List.length_flatten] at hl ⊢
    exact hl
  have hml : ((NewBufferedWriteCloser maxBytes maxMemBytes).writeAll
      ps).memBytesWritten ≤ maxMemBytes := by
    have h := hinv.mem_le
    rw [hmm] at h
    exact h
  have hdb : 0 < ((NewBufferedWriteCloser maxBytes maxMemBytes).writeAll
      ps).diskBytesWritten := by
    have hm := hinv.mem_count
    have hd := hinv.disk_count
    omega
  have hsome : ((NewBufferedWriteCloser maxBytes maxMemBytes).writeAll
      ps).diskBuffer.isSome = true := hinv.disk_iff.mpr hdb
  have hmemlen : ((NewBufferedWriteCloser maxBytes maxMemBytes).writeAll
      ps).memoryBuffer.length = maxMemBytes := by
    have hfull := hinv.disk_full hsome
    rw [hmm] at hfull
    have hfull2 : ((NewBufferedWriteCloser maxBytes maxMemBytes).writeAll
        ps).memBytesWritten = maxMemBytes := hfull
    have hm := hinv.mem_count
    omega
  refine ⟨?_, hcont, ?_, ?_⟩
  · rw [Buffer.countSpills_eq, if_pos]
    exact ⟨rfl, hsome⟩
  · have h1 : List.take maxMemBytes ps.flatten =
        ((NewBufferedWriteCloser maxBytes maxMemBytes).writeAll
          ps).memoryBuffer := by
      conv_lhs => rw [← hmemlen, ← hcont]
      exact List.take_left _ _
    exact h1.symm
  · have h1 : List.drop maxMemBytes ps.flatten =
        ((NewBufferedWriteCloser maxBytes maxMemBytes).writeAll
          ps).diskContents := by
      conv_lhs => rw [← hmemlen, ← hcont]
      exact List.drop_left _ _
    exact h1.symm

/-- C2 witness: maxBytes 0 (unlimited), maxMemBytes 10, two 6-byte writes. -/
theorem c2_spill_once_read_in_order_witness :
    (10 < ([[1, 2, 3, 4, 5, 6], [7, 8, 9, 10, 11, 12]].map List.length).sum) ∧
      ((NewBufferedWriteCloser 0 10).countSpills
          [[1, 2, 3, 4, 5, 6], [7, 8, 9, 10, 11, 12]] = 1 ∧
        (((NewBufferedWriteCloser 0 10).writeAll
            [[1, 2, 3, 4, 5, 6], [7, 8, 9, 10, 11, 12]]).Send).2 =
          [[1, 2, 3, 4, 5, 6], [7, 8, 9, 10, 11, 12]].flatten ∧
        ((NewBufferedWriteCloser 0 10).writeAll
            [[1, 2, 3, 4, 5, 6], [7, 8, 9, 10, 11, 12]]).memoryBuffer =
          [[1, 2, 3, 4, 5, 6], [7, 8, 9, 10, 11, 12]].flatten.take 10 ∧
        ((NewBufferedWriteCloser 0 10).writeAll
            [[1, 2, 3, 4, 5, 6], [7, 8, 9, 10, 11, 12]]).diskContents =
          [[1, 2, 3, 4, 5, 6], [7, 8, 9, 10, 11, 12]].flatten.drop 10) :=
  ⟨by decide,
    c2_spill_once_read_in_order 0 10 [[1, 2, 3, 4, 5, 6], [7, 8, 9, 10, 11, 12]]
      (by decide) (by decide)⟩

/-- C4 counterexample: the printable cookie value "eSN.1" (bytes 101 83 78
46 49) has 32-bit FNV-1a hash exactly 0, and at percentage 0 the comparison
hash ≤ splitPoint is 0 ≤ 0, so this non-allow-listed identifier is routed to
the canary group — refuting the claim that the decision is always false. -/
theorem c4_counterexample :
    fnv1a32 [101, 83, 78, 46, 49] = 0 ∧
      ([101, 83, 78, 46, 49] ∉ ([] : List ByteString)) ∧
      (NewRolloutController 0 []).RequestUsesRolloutGroup
        (some [101, 83, 78, 46, 49]) = true := by
  have hh : fnv1a32 [101, 83, 78, 46, 49] = 0 := by decide
  refine ⟨hh, by decide, ?_⟩
  simp only [RolloutController.RequestUsesRolloutGroup,
    RolloutController.splitValue, Option.getD_some]
  rw [if_neg (by decide : ¬([101, 83, 78, 46, 49] : ByteString) = [])]
  rw [if_neg (by decide :
    ¬(NewRolloutController 0 []).valueInAllowlist [101, 83, 78, 46, 49] = true)]
  simp only [RolloutController.valueInRolloutPercentage, NewRolloutController,
    hh, decide_eq_true_eq]
  norm_num

/-- C4 (amended): at percentage 0 a non-allow-listed identifier is routed to
the canary group only in the degenerate case that its FNV-1a hash is exactly
0 (the threshold comparison is hash ≤ 0); for every identifier whose hash is
nonzero the decision is false. -/
theorem c4_percentage_zero_amended (al : List ByteString) (id : ByteString)
    (hal : id ∉ al) (hh : fnv1a32 id ≠ 0) :
    (NewRolloutController 0 al).RequestUsesRolloutGroup (some id) = false := by
  simp only [RolloutController.RequestUsesRolloutGroup,
    RolloutController.splitValue, Option.getD_some]
  by_cases hid : id = []
  · simp [hid]
  · rw [if_neg hid]
    have hcon : (NewRolloutController 0 al).valueInAllowlist id = false := by
      simp [RolloutController.valueInAllowlist, NewRolloutController, hal]
    rw [hcon, if_neg (by simp)]
    simp only [RolloutController.valueInRolloutPercentage, NewRolloutController]
    rw [decide_eq_false_iff_not]
    simp only [Nat.cast_zero, zero_div, mul_zero]
    rw [Nat.cast_nonpos]
    omega

/-- C4 amended witness: empty allow-list and the identifier byte 120. -/
theorem c4_percentage_zero_amended_witness :
    ([120] ∉ ([] : List ByteString)) ∧ fnv1a32 [120] ≠ 0 ∧
      (NewRolloutController 0 []).RequestUsesRolloutGroup (some [120])
        = false :=
  ⟨by decide, by decide,
    c4_percentage_zero_amended [] [120] (by decide) (by decide)⟩

/-- C8 counterexample: the empty string can be placed on the allow-list and
carried by the rollout cookie, yet the decision is false (the empty split
value short-circuits the whole check before the allow-list is consulted),
even at percentage 100 — refuting the claim for that identifier. -/
theorem c8_counterexample :
    (([] : ByteString) ∈ [([] : ByteString)]) ∧
      (NewRolloutController 100 [[]]).RequestUsesRolloutGroup (some [])
        = false := by
  refine ⟨by decide, ?_⟩
  decide

/-- C8 (amended): every nonempty identifier present in the allow-list is
routed to the canary group regardless of the configured percentage
(including percentage 0): the allow-list check short-circuits the hash
comparison, which is never reached. -/
theorem c8_allowlist_overrides_amended (percentage : Nat)
    (al : List ByteString) (id : ByteString) (hmem : id ∈ al)
    (hne : id ≠ []) :
    (NewRolloutController percentage al).RequestUsesRolloutGroup (some id)
      = true := by
  simp only [RolloutController.RequestUsesRolloutGroup,
    RolloutController.splitValue, Option.getD_some]
  rw [if_neg hne]
  have hcon : (NewRolloutController percentage al).valueInAllowlist id
      = true := by
    simp [RolloutController.valueInAllowlist, NewRolloutController, hmem]
  rw [hcon, if_pos rfl]

/-- C8 amended witness: percentage 0, the identifier byte 118 on the
allow-list. -/
theorem c8_allowlist_overrides_amended_witness :
    ([118] ∈ [[118]]) ∧ ([118] : ByteString) ≠ [] ∧
      (NewRolloutController 0 [[118]]).RequestUsesRolloutGroup (some [118])
        = true :=
  ⟨by decide, by decide,
    c8_allowlist_overrides_amended 0 [[118]] [118] (by decide) (by decide)⟩

/-- C9: the routing decision is a pure function of the triple (percentage,
allow-list, identifier).  The embedding is stateless, so repeated
evaluations are literally the same value; this theorem states the remaining
content: two requests carrying the same identifier receive the same decision
from controllers constructed from the same configuration (the FNV-1a hash
and the precomputed split point depend only on the triple). -/
theorem c9_decision_deterministic (percentage : Nat) (al : List ByteString)
    (r₁ r₂ : Option ByteString)
    (h : (NewRolloutController percentage al).splitValue r₁ =
      (NewRolloutController percentage al).splitValue r₂) :
    (NewRolloutController percentage al).RequestUsesRolloutGroup r₁ =
      (NewRolloutController percentage al).RequestUsesRolloutGroup r₂ := by
  simp only [RolloutController.RequestUsesRolloutGroup, h]

/-- C9 witness: percentage 50 and two requests carrying the byte 97. -/
theorem c9_decision_deterministic_witness :
    ((NewRolloutController 50 []).splitValue (some [97]) =
      (NewRolloutController 50 []).splitValue (some [97])) ∧
      ((NewRolloutController 50 []).RequestUsesRolloutGroup (some [97]) =
        (NewRolloutController 50 []).RequestUsesRolloutGroup (some [97])) :=
  ⟨rfl, c9_decision_deterministic 50 [] (some [97]) (some [97]) rfl⟩

/-- C10: when the split value extracted from the request is the empty string
(cookie absent, or present with empty value), the routing decision is false
unconditionally — for every percentage and allow-list, even when the empty
string is allow-listed and the percentage is 100. -/
theorem c10_empty_identifier_never_canary (percentage : Nat)
    (al : List ByteString) (r : Option ByteString)
    (h : (NewRolloutController percentage al).splitValue r = []) :
    (NewRolloutController percentage al).RequestUsesRolloutGroup r
      = false := by
  simp only [RolloutController.RequestUsesRolloutGroup, h, if_pos]

/-- C10 witness: percentage 100, the empty string allow-listed, and a
request whose cookie is present with empty value. -/
theorem c10_empty_identifier_never_canary_witness :
    ((NewRolloutController 100 [[]]).splitValue (some []) = []) ∧
      ((NewRolloutController 100 [[]]).RequestUsesRolloutGroup (some [])
        = false) :=
  ⟨rfl, c10_empty_identifier_never_canary 100 [[]] (some []) rfl⟩

end KamalProxy
